import Mathlib

set_option maxRecDepth 4000

/-!
Shallow embedding of `COFF/MapFile.cpp` (the `/lldmap` map-file writer of
the COFF linker): line formatters, the hierarchy walk over output sections,
section chunks, object files and symbols, and the temp-file/rename publish
step of `coff::writeMapFile`.
-/

/-- String of lowercase hex digits of `n`, no prefix (as LLVM `utohexstr`
with lowercase digits; `Nat.toDigits 16` produces `0-9a-f`). -/
def toHexStr (n : Nat) : String :=
  ⟨Nat.toDigits 16 n⟩

/-- Left-pad `s` with copies of `c` to a minimum width `w`. -/
def padLeftWith (c : Char) (w : Nat) (s : String) : String :=
  ⟨List.replicate (w - s.length) c⟩ ++ s

/-- Embeds LLVM `left_justify(s, w)`: `s` followed by blanks up to a
minimum width `w` (no truncation when `s` is longer). -/
def left_justify (s : String) (w : Nat) : String :=
  s ++ ⟨List.replicate (w - s.length) ' '⟩

/-- Embeds LLVM `format_hex_no_prefix(v, w)`: lowercase hex digits of `v`,
zero-padded on the left to a minimum of `w` digits, no `0x` prefix. -/
def formatHexField (v w : Nat) : String :=
  padLeftWith '0' w (toHexStr v)

/-- Embeds `format("%5x ", Align)` from `writeOutSecLine`: `%x` reads an
`unsigned int` from the varargs, hence the low 32 bits of the `uint64_t`
argument; right-aligned in a 5-character field, followed by one blank
(the blank is part of the format string). -/
def formatAlignField (al : Nat) : String :=
  padLeftWith ' ' 5 (toHexStr (al % 4294967296)) ++ " "

/-- Embeds `writeOutSecLine` of MapFile.cpp: address and size as 8-digit
hex fields, the align field, then the name left-justified to width 7. -/
def writeOutSecLine (Address Size Align : Nat) (Name : String) : String :=
  formatHexField Address 8 ++ " " ++ formatHexField Size 8 ++ " " ++
    formatAlignField Align ++ left_justify Name 7

/-- Embeds `writeInSecLine`: the out-sec line with an empty name (blank
padding for the parent column), then the name left-justified to width 7. -/
def writeInSecLine (Address Size Align : Nat) (Name : String) : String :=
  writeOutSecLine Address Size Align "" ++ " " ++ left_justify Name 7

/-- Embeds `writeFileLine`: the in-sec line with an empty name, then the
file name left-justified to width 7. -/
def writeFileLine (Address Size Align : Nat) (Name : String) : String :=
  writeInSecLine Address Size Align "" ++ " " ++ left_justify Name 7

/-- Embeds `writeSymbolLine`: the file line with align `0` and an empty
name, then the symbol name left-justified to width 7. -/
def writeSymbolLine (Address Size : Nat) (Name : String) : String :=
  writeFileLine Address Size 0 "" ++ " " ++ left_justify Name 7

/-- A `SymbolBody` as seen by the map writer: either a `DefinedRegular`
symbol (RVA, identity of the chunk it is defined in, the
`isSectionDefinition` flag of its COFF symbol, display name), or any
other kind of symbol, which the writer skips. -/
inductive SymbolBody where
  | definedRegular (rva : Nat) (chunkId : Nat) (isSectionDef : Bool) (name : String)
  | otherKind (name : String)
deriving DecidableEq, Repr

/-- A `coff::ObjectFile`: display name (`toString(File)`) and its ordered
symbol list (`File->getSymbols()`). -/
structure ObjectFile where
  name : String
  symbols : List SymbolBody
deriving DecidableEq, Repr

/-- A `SectionChunk` (real input-section fragment). `id` stands for the
pointer identity of the chunk: the C++ code compares chunk pointers, so
two distinct chunks have distinct `id`s while sharing any names. `file`
is `SC->File`, absent for chunks with no owning object file. -/
structure SectionChunk where
  id : Nat
  rva : Nat
  size : Nat
  align : Nat
  sectionName : String
  file : Option ObjectFile
deriving DecidableEq, Repr

/-- A `Chunk` in an output section: either a real `SectionChunk` or a
synthetic chunk (`dyn_cast<SectionChunk>` fails on it). -/
inductive Chunk where
  | sectionChunk (sc : SectionChunk)
  | synthetic
deriving DecidableEq, Repr

/-- An `OutputSection`: name, RVA, virtual size, and its ordered chunks. -/
structure OutputSection where
  name : String
  rva : Nat
  virtualSize : Nat
  chunks : List Chunk
deriving DecidableEq, Repr

/-- One emitted report row, at one of the four nesting depths. -/
inductive Row where
  | outSec (address size align : Nat) (name : String)
  | inSec (address size align : Nat) (name : String)
  | file (address size align : Nat) (name : String)
  | symbol (address size : Nat) (name : String)
deriving DecidableEq, Repr

/-- Render one row as the C++ code writes it (the line followed by the
`'\n'` the caller emits). -/
def renderRow : Row → String
  | Row.outSec a s al n => writeOutSecLine a s al n ++ "\n"
  | Row.inSec a s al n => writeInSecLine a s al n ++ "\n"
  | Row.file a s al n => writeFileLine a s al n ++ "\n"
  | Row.symbol a s n => writeSymbolLine a s n ++ "\n"

/-- The symbol row produced (or not) for one symbol of the owning file
while visiting chunk `sc`: the body of the loop in `writeSectionChunk`.
A row is produced iff the symbol is a `DefinedRegular`, its chunk is
(pointer-)identical to `sc`, and it is not a section definition; the row
carries the symbol's own RVA, the chunk's size (`SC->getSize()`), and the
symbol's display name. -/
def symRowFor (sc : SectionChunk) (sym : SymbolBody) : Option Row :=
  match sym with
  | SymbolBody.definedRegular a c sd n =>
      if c = sc.id ∧ sd = false then some (Row.symbol a sc.size n) else none
  | SymbolBody.otherKind _ => none

/-- The symbol rows of the loop at the end of `writeSectionChunk`, in the
order of the file's symbol list. -/
def symRowsOf (f : ObjectFile) (sc : SectionChunk) : List Row :=
  f.symbols.filterMap (symRowFor sc)

/-- The rows `writeSectionChunk` emits after the fragment header: nothing
when the chunk has no owning file (`if (!File) return;`), otherwise one
file row followed by the symbol rows. -/
def chunkTailRows (sc : SectionChunk) : List Row :=
  match sc.file with
  | none => []
  | some f => Row.file sc.rva sc.size sc.align f.name :: symRowsOf f sc

/-- Embeds `writeSectionChunk`: the possibly-suppressed fragment header
row (emitted, and `PrevName` updated, only when the section name differs
from `PrevName`), then the file and symbol rows of `chunkTailRows`.
Returns the emitted rows and the new `PrevName`. -/
def writeSectionChunkRows (sc : SectionChunk) (prevName : String) :
    List Row × String :=
  let hdr :=
    if sc.sectionName ≠ prevName then
      ([Row.inSec sc.rva sc.size sc.align sc.sectionName], sc.sectionName)
    else (([] : List Row), prevName)
  (hdr.1 ++ chunkTailRows sc, hdr.2)

/-- The chunk loop of `writeMapFile2`: synthetic chunks are skipped
entirely (they do not touch `PrevName`); real chunks go through
`writeSectionChunk` with the threaded `PrevName`. -/
def writeChunksRows : List Chunk → String → List Row
  | [], _ => []
  | Chunk.sectionChunk sc :: rest, prev =>
      (writeSectionChunkRows sc prev).1 ++
        writeChunksRows rest (writeSectionChunkRows sc prev).2
  | Chunk.synthetic :: rest, prev => writeChunksRows rest prev

/-- Embeds one iteration of the section loop of `writeMapFile2`: the
section row (`uint32_t VA = Sec->getRVA()` truncates the RVA to 32 bits;
the align column is the external constant `PageSize`, passed here as
`pageSize`), then the chunk rows with `PrevName` reset to `""`. -/
def writeSectionRows (pageSize : Nat) (sec : OutputSection) : List Row :=
  Row.outSec (sec.rva % 4294967296) sec.virtualSize pageSize sec.name ::
    writeChunksRows sec.chunks ""

/-- All rows of the report body, section by section in input order. -/
def writeMapRows (pageSize : Nat) (secs : List OutputSection) : List Row :=
  (secs.map (writeSectionRows pageSize)).flatten

/-- The header row written at the top of `writeMapFile2`. -/
def headerLine : String :=
  left_justify "Address" 8 ++ " " ++ left_justify "Size" 8 ++ " " ++
    left_justify "Align" 5 ++ " " ++ left_justify "Out" 7 ++ " " ++
    left_justify "In" 7 ++ " " ++ left_justify "File" 7 ++ " Symbol\n"

/-- Concatenation of a list of strings (the successive stream writes). -/
def concatAll : List String → String
  | [] => ""
  | s :: rest => s ++ concatAll rest

/-- The successive pieces `writeMapFile2` writes to the stream: the
header, then each rendered row. -/
def reportPieces (pageSize : Nat) (secs : List OutputSection) : List String :=
  headerLine :: (writeMapRows pageSize secs).map renderRow

/-- Embeds `writeMapFile2`: the full text written to the map file. -/
def writeMapFile2Str (pageSize : Nat) (secs : List OutputSection) : String :=
  concatAll (reportPieces pageSize secs)

/-- The linker configuration as far as the map writer reads it:
`Config->MapFile`. -/
structure Config where
  mapFile : String

/-- Abstract filesystem state: each path maps to the content of the file
at that path, or `none` when no file exists there. -/
structure FsState where
  files : String → Option String

/-- Create or overwrite the file at `p` with content `c`. -/
def fsSet (fs : FsState) (p c : String) : FsState :=
  ⟨fun q => if q = p then some c else fs.files q⟩

/-- Remove the file at `p` (no-op when absent). -/
def fsErase (fs : FsState) (p : String) : FsState :=
  ⟨fun q => if q = p then none else fs.files q⟩

/-- `sys::fs::rename src dst`: atomically move the file at `src` onto
`dst`, replacing any file there; no-op when `src` does not exist. -/
def fsRename (fs : FsState) (src dst : String) : FsState :=
  match fs.files src with
  | some c => fsSet (fsErase fs src) dst c
  | none => fs

/-- Environment outcomes of the two fallible filesystem calls of
`coff::writeMapFile`: whether `createUniqueFile` fails (and with which
message), the unique suffix it substitutes for the `%%%%%%%` pattern when
it succeeds, and whether `rename` fails (and with which message). -/
structure FsOracle where
  createFails : Bool
  createMsg : String
  tempSuffix : String
  renameFails : Bool
  renameMsg : String

/-- The temporary path `createUniqueFile` derives from the pattern
`Twine(MapFile) + ".tmp%%%%%%%"`. -/
def tempPathOf (mapFile suffix : String) : String :=
  mapFile ++ ".tmp" ++ suffix

/-- The successive filesystem states while the stream pieces are appended
to the temp file, together with the final accumulated content. -/
def writeTraceAux (fs : FsState) (temp : String) :
    List String → String → List FsState × String
  | [], acc => ([], acc)
  | p :: rest, acc =>
      ((fsSet fs temp (acc ++ p)) ::
        (writeTraceAux fs temp rest (acc ++ p)).1,
       (writeTraceAux fs temp rest (acc ++ p)).2)

/-- Embeds `coff::writeMapFile` as a run over the abstract filesystem:
returns every filesystem state the run passes through, in order, and the
outcome — `Except.error msg` models `fatal(EC.message())` aborting the
process. An empty `Config->MapFile` returns at once. Otherwise a unique
temp file is created in the same directory (create failure is fatal with
the filesystem untouched), the report is streamed into it, and the temp
file is renamed onto the destination; on rename failure the run is fatal
and the `FileRemover` cleanup deletes the temp file (modelled from the
spec: `fatal` and the scoped-cleanup firing are code of this repository
outside `src/`; the spec says cleanup fires on every exit path and only
ever deletes the temporary, never the destination). -/
def writeMapFileRun (pageSize : Nat) (cfg : Config) (oracle : FsOracle)
    (secs : List OutputSection) (fs0 : FsState) :
    List FsState × Except String FsState :=
  if cfg.mapFile = "" then ([fs0], Except.ok fs0)
  else
    let temp := tempPathOf cfg.mapFile oracle.tempSuffix
    if oracle.createFails then ([fs0], Except.error oracle.createMsg)
    else
      let fs1 := fsSet fs0 temp ""
      let wr := writeTraceAux fs1 temp (reportPieces pageSize secs) ""
      let fsW := fsSet fs1 temp wr.2
      if oracle.renameFails then
        (fs0 :: fs1 :: wr.1 ++ [fsW, fsErase fsW temp],
         Except.error oracle.renameMsg)
      else
        (fs0 :: fs1 :: wr.1 ++ [fsW, fsRename fsW temp cfg.mapFile],
         Except.ok (fsRename fsW temp cfg.mapFile))

/-- The object file of the end-to-end scenario of spec section 8: `test.o`
with its two regular, non-section-definition symbols. -/
def testFile : ObjectFile :=
  ⟨"test.o", [SymbolBody.definedRegular 0x20100e 0 false "local",
              SymbolBody.definedRegular 0x201005 0 false "f(int)"]⟩

/-- The single `.text` fragment of the end-to-end scenario. -/
def testChunk : SectionChunk := ⟨0, 0x201000, 0xe, 4, ".text", some testFile⟩

/-- The single `.text` output section of the end-to-end scenario. -/
def testSection : OutputSection :=
  ⟨".text", 0x201000, 0x15, [Chunk.sectionChunk testChunk]⟩

/-- The literal example of spec section 6, byte for byte (header, a
separator line of 65 `=` characters, then the five rows, with no
trailing blanks on any line). -/
def specExampleSection6 : String :=
  "Address  Size     Align Out     In      File    Symbol\n" ++
  String.mk (List.replicate 65 '=') ++ "\n" ++
  "00201000 00000015     4 .text\n" ++
  "00201000 0000000e     4         .text\n" ++
  "00201000 0000000e     4                 test.o\n" ++
  "0020100e 00000000     0                         local\n" ++
  "00201005 00000000     0                         f(int)\n"

/-- What the code actually produces on the scenario: no separator line,
every final name column padded to 7 characters (trailing blanks), and the
fragment's size `0000000e` in the Size column of the symbol rows. -/
def actualExampleOutput : String :=
  "Address  Size     Align Out     In      File    Symbol\n" ++
  "00201000 00000015     4 .text  \n" ++
  "00201000 0000000e     4         .text  \n" ++
  "00201000 0000000e     4                 test.o \n" ++
  "0020100e 0000000e     0                         local  \n" ++
  "00201005 0000000e     0                         f(int) \n"

/-- Is this row a section-level row? -/
def isOutSecRow : Row → Bool
  | Row.outSec _ _ _ _ => true
  | _ => false

/-- Is this row a fragment-level row? -/
def isInSecRow : Row → Bool
  | Row.inSec _ _ _ _ => true
  | _ => false

/-- Is this row a file-level row? -/
def isFileRow : Row → Bool
  | Row.file _ _ _ _ => true
  | _ => false

/-- Is this row a symbol-level row? -/
def isSymRow : Row → Bool
  | Row.symbol _ _ _ => true
  | _ => false

/-- The fragment-level row a chunk yields when it is not suppressed. -/
def mkInSecRow (sc : SectionChunk) : Row :=
  Row.inSec sc.rva sc.size sc.align sc.sectionName

/-- The file-level row a chunk yields, when it has an owning file. -/
def mkFileRowOpt (sc : SectionChunk) : Option Row :=
  sc.file.map (fun f => Row.file sc.rva sc.size sc.align f.name)

/-- Project a section-level row to its fields. -/
def projOutSec : Row → Option (Nat × Nat × Nat × String)
  | Row.outSec a s al n => some (a, s, al, n)
  | _ => none

/-- The real fragments among a section's chunks, in order (the successful
`dyn_cast<SectionChunk>` results). -/
def realChunks : List Chunk → List SectionChunk :=
  List.filterMap (fun c =>
    match c with
    | Chunk.sectionChunk sc => some sc
    | Chunk.synthetic => none)

/-- The fragments whose section name differs from their predecessor's
(the predecessor of the first fragment being the sentinel `prev`): the
first fragment of every run of consecutive same-named fragments, except
that a leading run whose name equals `prev` is dropped. -/
def runFirstsFrom (prev : String) : List SectionChunk → List SectionChunk
  | [] => []
  | sc :: rest =>
      (if sc.sectionName ≠ prev then [sc] else []) ++
        runFirstsFrom sc.sectionName rest

/-- All real fragments of the whole layout, in traversal order. -/
def allRealChunks (secs : List OutputSection) : List SectionChunk :=
  (secs.map (fun sec => realChunks sec.chunks)).flatten

/-- A real fragment whose section name is the empty string. -/
def emptyNameChunk : SectionChunk := ⟨1, 0x1000, 0x10, 4, "", none⟩

/-- A section whose first (and only) real fragment has an empty name. -/
def emptyNameSection : OutputSection :=
  ⟨".data", 0x1000, 0x10, [Chunk.sectionChunk emptyNameChunk]⟩

/-- A filesystem with no files. -/
def emptyFs : FsState := ⟨fun _ => none⟩

/-- An oracle on which both filesystem calls succeed. -/
def okOracle : FsOracle := ⟨false, "", "1234567", false, ""⟩

/-- A concrete destination configuration. -/
def outCfg : Config := ⟨"out.map"⟩

theorem str_empty_append (s : String) : "" ++ s = s := by
  cases s with
  | mk d => rfl

theorem str_append_empty (s : String) : s ++ "" = s := by
  cases s with
  | mk d => show String.mk (d ++ []) = String.mk d; rw [List.append_nil]

theorem str_length_append (a b : String) :
    (a ++ b).length = a.length + b.length := by
  cases a with
  | mk da =>
    cases b with
    | mk db =>
      show (da ++ db).length = da.length + db.length
      simp

theorem str_append_assoc (a b c : String) : a ++ b ++ c = a ++ (b ++ c) := by
  cases a with
  | mk da =>
    cases b with
    | mk db =>
      cases c with
      | mk dc =>
        show String.mk (da ++ db ++ dc) = String.mk (da ++ (db ++ dc))
        rw [List.append_assoc]

theorem tempPathOf_ne (m suf : String) : tempPathOf m suf ≠ m := by
  intro h
  have h2 := congrArg String.length h
  rw [tempPathOf, str_length_append, str_length_append] at h2
  have h4 : (".tmp").length = 4 := rfl
  omega

theorem fsSet_self (fs : FsState) (p c : String) :
    (fsSet fs p c).files p = some c := by
  simp [fsSet]

theorem fsSet_other (fs : FsState) (p c q : String) (h : q ≠ p) :
    (fsSet fs p c).files q = fs.files q := by
  simp [fsSet, h]

theorem fsErase_other (fs : FsState) (p q : String) (h : q ≠ p) :
    (fsErase fs p).files q = fs.files q := by
  simp [fsErase, h]

theorem fsRename_files_dst (fs : FsState) (src dst c : String)
    (hsrc : fs.files src = some c) :
    (fsRename fs src dst).files dst = some c := by
  unfold fsRename
  rw [hsrc]
  exact fsSet_self _ dst c

theorem writeTraceAux_mem (fs : FsState) (temp : String) (l : List String) :
    ∀ acc st, st ∈ (writeTraceAux fs temp l acc).1 →
      ∀ q, q ≠ temp → st.files q = fs.files q := by
  induction l with
  | nil => intro acc st h q hq; simp [writeTraceAux] at h
  | cons p rest ih =>
    intro acc st h q hq
    rw [writeTraceAux] at h
    rcases List.mem_cons.1 h with h1 | h2
    · rw [h1]; exact fsSet_other fs temp (acc ++ p) q hq
    · exact ih (acc ++ p) st h2 q hq

theorem writeTraceAux_acc (fs : FsState) (temp : String) (l : List String) :
    ∀ acc, (writeTraceAux fs temp l acc).2 = acc ++ concatAll l := by
  induction l with
  | nil =>
    intro acc
    show acc = acc ++ ""
    rw [str_append_empty]
  | cons p rest ih =>
    intro acc
    rw [writeTraceAux]
    show (writeTraceAux fs temp rest (acc ++ p)).2 = acc ++ concatAll (p :: rest)
    rw [ih (acc ++ p), concatAll, str_append_assoc]

/-- Claim C1: for every destination path and input layout, `writeMapFile`
either makes the complete rendered report visible at the destination path
(written to a temp file in the same directory, then renamed over the
destination) or leaves the destination path exactly as before the call
and surfaces the filesystem error as a fatal condition; no state the run
passes through has a partially written report at the destination. -/
theorem writeMapFile_atomic_publish (pageSize : Nat) (cfg : Config)
    (oracle : FsOracle) (secs : List OutputSection) (fs0 : FsState)
    (h : cfg.mapFile ≠ "") :
    (∀ st ∈ (writeMapFileRun pageSize cfg oracle secs fs0).1,
        st.files cfg.mapFile = fs0.files cfg.mapFile ∨
        st.files cfg.mapFile = some (writeMapFile2Str pageSize secs)) ∧
    (∀ fsF, (writeMapFileRun pageSize cfg oracle secs fs0).2 = Except.ok fsF →
        fsF.files cfg.mapFile = some (writeMapFile2Str pageSize secs)) ∧
    (∀ msg, (writeMapFileRun pageSize cfg oracle secs fs0).2 = Except.error msg →
        ∀ st ∈ (writeMapFileRun pageSize cfg oracle secs fs0).1,
          st.files cfg.mapFile = fs0.files cfg.mapFile) := by
  have hd : cfg.mapFile ≠ tempPathOf cfg.mapFile oracle.tempSuffix :=
    fun he => tempPathOf_ne cfg.mapFile oracle.tempSuffix he.symm
  set temp := tempPathOf cfg.mapFile oracle.tempSuffix with htemp
  set fs1 := fsSet fs0 temp "" with hfs1
  set wr := writeTraceAux fs1 temp (reportPieces pageSize secs) "" with hwr
  set fsW := fsSet fs1 temp wr.2 with hfsW
  have hfs1d : fs1.files cfg.mapFile = fs0.files cfg.mapFile :=
    fsSet_other fs0 temp "" cfg.mapFile hd
  have hfsWd : fsW.files cfg.mapFile = fs0.files cfg.mapFile := by
    rw [hfsW, fsSet_other fs1 temp wr.2 cfg.mapFile hd, hfs1d]
  have hwrd : ∀ st ∈ wr.1, st.files cfg.mapFile = fs0.files cfg.mapFile := by
    intro st hst
    rw [writeTraceAux_mem fs1 temp (reportPieces pageSize secs) "" st hst
      cfg.mapFile hd]
    exact hfs1d
  have hcontent : wr.2 = writeMapFile2Str pageSize secs := by
    rw [hwr, writeTraceAux_acc, str_empty_append, writeMapFile2Str]
  have hWtemp : fsW.files temp = some (writeMapFile2Str pageSize secs) := by
    rw [hfsW, ← hcontent]
    exact fsSet_self fs1 temp wr.2
  have hren : (fsRename fsW temp cfg.mapFile).files cfg.mapFile =
      some (writeMapFile2Str pageSize secs) :=
    fsRename_files_dst fsW temp cfg.mapFile _ hWtemp
  by_cases hc : oracle.createFails
  · have hrun : writeMapFileRun pageSize cfg oracle secs fs0 =
        ([fs0], Except.error oracle.createMsg) := by
      simp only [writeMapFileRun, if_neg h, hc, if_true]
    refine ⟨?_, ?_, ?_⟩
    · intro st hst
      rw [hrun] at hst
      rcases List.mem_singleton.1 hst with rfl
      exact Or.inl rfl
    · intro fsF hF
      rw [hrun] at hF
      exact absurd hF (by simp)
    · intro msg hm st hst
      rw [hrun] at hst
      rcases List.mem_singleton.1 hst with rfl
      rfl
  · have hc' : oracle.createFails = false := by
      cases hcf : oracle.createFails
      · rfl
      · exact absurd hcf hc
    by_cases hr : oracle.renameFails
    · have hrun : writeMapFileRun pageSize cfg oracle secs fs0 =
          (fs0 :: fs1 :: wr.1 ++ [fsW, fsErase fsW temp],
           Except.error oracle.renameMsg) := by
        simp only [writeMapFileRun, if_neg h, hc', hr]
        rfl
      have hall : ∀ st ∈ (writeMapFileRun pageSize cfg oracle secs fs0).1,
          st.files cfg.mapFile = fs0.files cfg.mapFile := by
        intro st hst
        rw [hrun] at hst
        rcases List.mem_cons.1 hst with rfl | hst
        · rfl
        rcases List.mem_cons.1 hst with rfl | hst
        · exact hfs1d
        rcases List.mem_append.1 hst with hst | hst
        · exact hwrd st hst
        rcases List.mem_cons.1 hst with rfl | hst
        · exact hfsWd
        rcases List.mem_singleton.1 hst with rfl
        rw [fsErase_other fsW temp cfg.mapFile hd]
        exact hfsWd
      refine ⟨fun st hst => Or.inl (hall st hst), ?_, fun msg hm => hall⟩
      intro fsF hF
      rw [hrun] at hF
      exact absurd hF (by simp)
    · have hr' : oracle.renameFails = false := by
        cases hrf : oracle.renameFails
        · rfl
        · exact absurd hrf hr
      have hrun : writeMapFileRun pageSize cfg oracle secs fs0 =
          (fs0 :: fs1 :: wr.1 ++ [fsW, fsRename fsW temp cfg.mapFile],
           Except.ok (fsRename fsW temp cfg.mapFile)) := by
        simp only [writeMapFileRun, if_neg h, hc', hr']
        rfl
      refine ⟨?_, ?_, ?_⟩
      · intro st hst
        rw [hrun] at hst
        rcases List.mem_cons.1 hst with rfl | hst
        · exact Or.inl rfl
        rcases List.mem_cons.1 hst with rfl | hst
        · exact Or.inl hfs1d
        rcases List.mem_append.1 hst with hst | hst
        · exact Or.inl (hwrd st hst)
        rcases List.mem_cons.1 hst with rfl | hst
        · exact Or.inl hfsWd
        rcases List.mem_singleton.1 hst with rfl
        exact Or.inr hren
      · intro fsF hF
        rw [hrun] at hF
        have h2 : fsRename fsW temp cfg.mapFile = fsF := Except.ok.inj hF
        rw [← h2]
        exact hren
      · intro msg hm
        rw [hrun] at hm
        exact absurd hm (by simp)

/-- Witness for C1 at a concrete destination, oracle, layout and
filesystem. -/
theorem writeMapFile_atomic_publish_witness :
    outCfg.mapFile ≠ "" ∧
    ((∀ st ∈ (writeMapFileRun 4 outCfg okOracle [testSection] emptyFs).1,
        st.files outCfg.mapFile = emptyFs.files outCfg.mapFile ∨
        st.files outCfg.mapFile = some (writeMapFile2Str 4 [testSection])) ∧
     (∀ fsF,
        (writeMapFileRun 4 outCfg okOracle [testSection] emptyFs).2 =
          Except.ok fsF →
        fsF.files outCfg.mapFile = some (writeMapFile2Str 4 [testSection])) ∧
     (∀ msg,
        (writeMapFileRun 4 outCfg okOracle [testSection] emptyFs).2 =
          Except.error msg →
        ∀ st ∈ (writeMapFileRun 4 outCfg okOracle [testSection] emptyFs).1,
          st.files outCfg.mapFile = emptyFs.files outCfg.mapFile)) :=
  ⟨by decide,
   writeMapFile_atomic_publish 4 outCfg okOracle [testSection] emptyFs
     (by decide)⟩

/-- Claim C8: when the configured map-file output path is empty the
feature is disabled: `writeMapFile` returns immediately, the run passes
through no state other than the initial one, and the filesystem is
unchanged. -/
theorem writeMapFile_disabled_noop (pageSize : Nat) (cfg : Config)
    (oracle : FsOracle) (secs : List OutputSection) (fs0 : FsState)
    (h : cfg.mapFile = "") :
    writeMapFileRun pageSize cfg oracle secs fs0 = ([fs0], Except.ok fs0) := by
  simp [writeMapFileRun, h]

/-- Witness for C8 at a concrete empty configuration. -/
theorem writeMapFile_disabled_noop_witness :
    (Config.mk "").mapFile = "" ∧
    writeMapFileRun 4 ⟨""⟩ okOracle [testSection] emptyFs =
      ([emptyFs], Except.ok emptyFs) :=
  ⟨rfl, writeMapFile_disabled_noop 4 ⟨""⟩ okOracle [testSection] emptyFs rfl⟩

theorem writeMapFile2Str_nil (pageSize : Nat) :
    writeMapFile2Str pageSize [] = headerLine := by
  show concatAll [headerLine] = headerLine
  show headerLine ++ "" = headerLine
  exact str_append_empty headerLine

/-- Claim C10: with a non-empty map-file path and an empty
`OutputSections` list, `writeMapFile` still creates, writes and publishes
a file at the destination whose content is exactly the single
column-header line. -/
theorem writeMapFile_empty_layout (pageSize : Nat) (cfg : Config)
    (oracle : FsOracle) (fs0 : FsState) (h : cfg.mapFile ≠ "")
    (hc : oracle.createFails = false) (hr : oracle.renameFails = false) :
    ∃ fsF, (writeMapFileRun pageSize cfg oracle [] fs0).2 = Except.ok fsF ∧
      fsF.files cfg.mapFile = some headerLine := by
  set temp := tempPathOf cfg.mapFile oracle.tempSuffix with htemp
  set fs1 := fsSet fs0 temp "" with hfs1
  set wr := writeTraceAux fs1 temp (reportPieces pageSize []) "" with hwr
  set fsW := fsSet fs1 temp wr.2 with hfsW
  have hcontent : wr.2 = headerLine := by
    rw [hwr, writeTraceAux_acc, str_empty_append]
    rw [← writeMapFile2Str, writeMapFile2Str_nil]
  have hWtemp : fsW.files temp = some wr.2 := by
    rw [hfsW]; exact fsSet_self fs1 temp wr.2
  have hren := fsRename_files_dst fsW temp cfg.mapFile wr.2 hWtemp
  rw [hcontent] at hren
  have hrun : (writeMapFileRun pageSize cfg oracle [] fs0).2 =
      Except.ok (fsRename fsW temp cfg.mapFile) := by
    simp only [writeMapFileRun, if_neg h, hc, hr]
    rfl
  exact ⟨fsRename fsW temp cfg.mapFile, hrun, hren⟩

/-- Witness for C10 at a concrete destination, oracle and filesystem. -/
theorem writeMapFile_empty_layout_witness :
    outCfg.mapFile ≠ "" ∧ okOracle.createFails = false ∧
    okOracle.renameFails = false ∧
    ∃ fsF, (writeMapFileRun 4 outCfg okOracle [] emptyFs).2 = Except.ok fsF ∧
      fsF.files outCfg.mapFile = some headerLine :=
  ⟨by decide, rfl, rfl,
   writeMapFile_empty_layout 4 outCfg okOracle emptyFs (by decide) rfl rfl⟩

/-- Counterexample to claim C2: on the end-to-end scenario of spec
section 8 (one `.text` section, one `.text` fragment of `test.o`, symbols
`local` and `f(int)`), the generated report is not byte-for-byte the
literal example of spec section 6: the code emits no separator line of
`=` characters, pads every final name column to 7 characters, and prints
the fragment's size (`0000000e`) in the Size column of the symbol rows
where the example shows `00000000`. -/
theorem scenario_output_ne_spec_example :
    writeMapFile2Str 4 [testSection] ≠ specExampleSection6 := by decide

/-- Claim C2 as amended: on the end-to-end scenario the generated report
is byte-for-byte `actualExampleOutput` — the section-6 example with the
separator line removed, each row's final name column left-justified to 7
characters (trailing blanks), and the fragment size `0000000e` in the
Size column of the two symbol rows. -/
theorem scenario_output_eq_actual :
    writeMapFile2Str 4 [testSection] = actualExampleOutput := by decide

/-- Counterexample to claim C7: the Symbol column of a symbol-level row
is not rendered unpadded; on symbol `local` (5 characters) the rendered
row is not the row that would end right after the name. -/
theorem symbol_column_not_unpadded :
    writeSymbolLine 0x20100e 0xe "local" ≠
      writeFileLine 0x20100e 0xe 0 "" ++ " " ++ "local" := by decide

/-- Claim C7 as amended: every name column, including the final Symbol
column, is left-justified to a 7-character minimum width; a final name
shorter than 7 characters is followed by a positive number of trailing
blanks. -/
theorem name_columns_left_justified (a s al : Nat) (n : String) :
    (writeSymbolLine a s n = writeFileLine a s 0 "" ++ " " ++ left_justify n 7) ∧
    (writeFileLine a s al n =
      writeInSecLine a s al "" ++ " " ++ left_justify n 7) ∧
    (writeInSecLine a s al n =
      writeOutSecLine a s al "" ++ " " ++ left_justify n 7) ∧
    ((left_justify n 7).length = max 7 n.length) ∧
    (n.length < 7 → ∃ k, 0 < k ∧
      left_justify n 7 = n ++ String.mk (List.replicate k ' ')) := by
  refine ⟨rfl, rfl, rfl, ?_, ?_⟩
  · rw [left_justify, str_length_append]
    show n.length + (List.replicate (7 - n.length) ' ').length = max 7 n.length
    rw [List.length_replicate]
    omega
  · intro hlt
    exact ⟨7 - n.length, by omega, rfl⟩

/-- Witness for C7's amended claim at the symbol name `local`. -/
theorem name_columns_left_justified_witness :
    ("local".length < 7) ∧ ∃ k, 0 < k ∧
      left_justify "local" 7 = "local" ++ String.mk (List.replicate k ' ') :=
  ⟨by decide,
   (name_columns_left_justified 0 0 0 "local").2.2.2.2 (by decide)⟩

theorem writeSectionChunkRows_snd (sc : SectionChunk) (prev : String) :
    (writeSectionChunkRows sc prev).2 = sc.sectionName := by
  by_cases h : sc.sectionName ≠ prev
  · simp [writeSectionChunkRows, h]
  · push_neg at h
    simp [writeSectionChunkRows, h]

theorem writeSectionChunkRows_fst (sc : SectionChunk) (prev : String) :
    (writeSectionChunkRows sc prev).1 =
      (if sc.sectionName ≠ prev then [mkInSecRow sc] else []) ++
        chunkTailRows sc := by
  by_cases h : sc.sectionName ≠ prev
  · simp [writeSectionChunkRows, mkInSecRow, h]
  · simp [writeSectionChunkRows, mkInSecRow, h]

theorem symRowsOf_shape (f : ObjectFile) (sc : SectionChunk) :
    ∀ r ∈ symRowsOf f sc, ∃ a s n, r = Row.symbol a s n := by
  intro r hr
  rcases List.mem_filterMap.1 hr with ⟨sym, hmem, hsome⟩
  cases sym with
  | definedRegular a c sd n =>
    simp only [symRowFor] at hsome
    by_cases hc : c = sc.id ∧ sd = false
    · rw [if_pos hc] at hsome
      exact ⟨a, sc.size, n, (Option.some.inj hsome).symm⟩
    · rw [if_neg hc] at hsome
      exact absurd hsome (by simp)
  | otherKind n => exact absurd hsome (by simp [symRowFor])

theorem symRowsOf_filter_empty (f : ObjectFile) (sc : SectionChunk)
    (p : Row → Bool) (hp : ∀ a s n, p (Row.symbol a s n) = false) :
    (symRowsOf f sc).filter p = [] := by
  rw [List.filter_eq_nil_iff]
  intro r hr
  rcases symRowsOf_shape f sc r hr with ⟨a, s, n, rfl⟩
  simp [hp]

theorem symRowsOf_filterMap_empty {α : Type} (f : ObjectFile)
    (sc : SectionChunk) (g : Row → Option α)
    (hg : ∀ a s n, g (Row.symbol a s n) = none) :
    (symRowsOf f sc).filterMap g = [] := by
  rw [List.filterMap_eq_nil_iff]
  intro r hr
  rcases symRowsOf_shape f sc r hr with ⟨a, s, n, rfl⟩
  exact hg a s n

theorem chunkTailRows_filter_inSec (sc : SectionChunk) :
    (chunkTailRows sc).filter isInSecRow = [] := by
  unfold chunkTailRows
  cases hf : sc.file with
  | none => rfl
  | some f =>
    rw [List.filter_cons]
    have h1 : isInSecRow (Row.file sc.rva sc.size sc.align f.name) = false := rfl
    rw [h1]
    simp only [Bool.false_eq_true, if_false]
    exact symRowsOf_filter_empty f sc isInSecRow (fun a s n => rfl)

theorem chunkTailRows_filter_file (sc : SectionChunk) :
    (chunkTailRows sc).filter isFileRow = (mkFileRowOpt sc).toList := by
  unfold chunkTailRows mkFileRowOpt
  cases hf : sc.file with
  | none => rfl
  | some f =>
    rw [List.filter_cons]
    have h1 : isFileRow (Row.file sc.rva sc.size sc.align f.name) = true := rfl
    rw [h1]
    simp only [if_true]
    rw [symRowsOf_filter_empty f sc isFileRow (fun a s n => rfl)]
    rfl

theorem realChunks_cons_sc (sc : SectionChunk) (rest : List Chunk) :
    realChunks (Chunk.sectionChunk sc :: rest) = sc :: realChunks rest := rfl

theorem realChunks_cons_syn (rest : List Chunk) :
    realChunks (Chunk.synthetic :: rest) = realChunks rest := rfl

theorem writeChunksRows_filter_inSec (chunks : List Chunk) :
    ∀ prev, (writeChunksRows chunks prev).filter isInSecRow =
      (runFirstsFrom prev (realChunks chunks)).map mkInSecRow := by
  induction chunks with
  | nil => intro prev; rfl
  | cons c rest ih =>
    intro prev
    cases c with
    | synthetic =>
      show (writeChunksRows rest prev).filter isInSecRow = _
      rw [ih prev, realChunks_cons_syn]
    | sectionChunk sc =>
      rw [writeChunksRows, List.filter_append,
        writeSectionChunkRows_snd, ih sc.sectionName,
        writeSectionChunkRows_fst, List.filter_append,
        chunkTailRows_filter_inSec, List.append_nil,
        realChunks_cons_sc, runFirstsFrom, List.map_append]
      by_cases h : sc.sectionName ≠ prev
      · rw [if_pos h, if_pos h]
        rfl
      · rw [if_neg h, if_neg h]
        rfl

theorem writeChunksRows_filter_file (chunks : List Chunk) :
    ∀ prev, (writeChunksRows chunks prev).filter isFileRow =
      (realChunks chunks).filterMap mkFileRowOpt := by
  induction chunks with
  | nil => intro prev; rfl
  | cons c rest ih =>
    intro prev
    cases c with
    | synthetic =>
      show (writeChunksRows rest prev).filter isFileRow = _
      rw [ih prev, realChunks_cons_syn]
    | sectionChunk sc =>
      rw [writeChunksRows, List.filter_append,
        writeSectionChunkRows_snd, ih sc.sectionName,
        writeSectionChunkRows_fst, List.filter_append,
        chunkTailRows_filter_file, realChunks_cons_sc, List.filterMap_cons]
      have hhdr : ((if sc.sectionName ≠ prev then [mkInSecRow sc] else
          []).filter isFileRow) = [] := by
        by_cases h : sc.sectionName ≠ prev
        · rw [if_pos h]; rfl
        · rw [if_neg h]; rfl
      rw [hhdr, List.nil_append]
      cases hf : mkFileRowOpt sc with
      | none => rfl
      | some r => rfl

theorem writeChunksRows_real (chunks : List Chunk) :
    ∀ prev, writeChunksRows ((realChunks chunks).map Chunk.sectionChunk) prev =
      writeChunksRows chunks prev := by
  induction chunks with
  | nil => intro prev; rfl
  | cons c rest ih =>
    intro prev
    cases c with
    | synthetic =>
      rw [realChunks_cons_syn, ih prev]
      rfl
    | sectionChunk sc =>
      rw [realChunks_cons_sc, List.map_cons, writeChunksRows, writeChunksRows,
        ih (writeSectionChunkRows sc prev).2]

/-- Claim C3 as amended: within each `OutputSection` the fragment-level
rows are exactly those of the fragments whose section name differs from
their predecessor's (the first fragment of every run of consecutive
same-named real fragments), each with that fragment's own RVA, size,
alignment and name; the previous-name state starts as the empty string in
every section, so the first fragment of a section is never suppressed
provided its section name is non-empty (a first fragment with an empty
section name is suppressed); and sections are processed independently, so
no dedup state leaks across a section boundary. -/
theorem inSec_rows_dedup (pageSize : Nat) (sec : OutputSection) :
    ((writeSectionRows pageSize sec).filter isInSecRow =
      (runFirstsFrom "" (realChunks sec.chunks)).map mkInSecRow) ∧
    (∀ sc rest, realChunks sec.chunks = sc :: rest → sc.sectionName ≠ "" →
      (writeSectionRows pageSize sec).filter isInSecRow =
        mkInSecRow sc :: (runFirstsFrom sc.sectionName rest).map mkInSecRow) ∧
    (∀ secs1 secs2 : List OutputSection,
      writeMapRows pageSize (secs1 ++ secs2) =
        writeMapRows pageSize secs1 ++ writeMapRows pageSize secs2) := by
  have hmain : (writeSectionRows pageSize sec).filter isInSecRow =
      (runFirstsFrom "" (realChunks sec.chunks)).map mkInSecRow := by
    show (writeChunksRows sec.chunks "").filter isInSecRow = _
    exact writeChunksRows_filter_inSec sec.chunks ""
  refine ⟨hmain, ?_, ?_⟩
  · intro sc rest hreal hne
    rw [hmain, hreal, runFirstsFrom, if_pos hne]
    rfl
  · intro secs1 secs2
    simp [writeMapRows]

/-- Counterexample to claim C3: a section whose first real fragment has
the empty string as its section name gets no fragment-level row at all —
the first fragment of a section can be suppressed, because the
previous-name state is initialized to the empty string. -/
theorem first_fragment_empty_name_suppressed :
    realChunks emptyNameSection.chunks = [emptyNameChunk] ∧
    (writeSectionRows 4 emptyNameSection).filter isInSecRow = [] := by
  decide

/-- Witness for C3's amended claim on the scenario section. -/
theorem inSec_rows_dedup_witness :
    (realChunks testSection.chunks = [testChunk]) ∧
    (testChunk.sectionName ≠ "") ∧
    (writeSectionRows 4 testSection).filter isInSecRow =
      mkInSecRow testChunk :: (runFirstsFrom ".text" []).map mkInSecRow :=
  ⟨by decide, by decide,
   (inSec_rows_dedup 4 testSection).2.1 testChunk [] (by decide) (by decide)⟩

/-- Claim C5: every real fragment with an owning file produces exactly
one file-level row, with the fragment's own address, size and alignment
and the file's display name, never deduplicated; a real fragment without
an owning file produces no file-level and no symbol-level rows; and
synthetic chunks produce no rows at any level (dropping them from the
chunk list leaves the section's rows unchanged). -/
theorem file_rows_per_fragment (pageSize : Nat) (sec : OutputSection) :
    ((writeSectionRows pageSize sec).filter isFileRow =
      (realChunks sec.chunks).filterMap mkFileRowOpt) ∧
    (∀ sc : SectionChunk, ∀ prev, sc.file = none →
      (writeSectionChunkRows sc prev).1.filter
        (fun r => isFileRow r || isSymRow r) = []) ∧
    (writeSectionRows pageSize sec =
      writeSectionRows pageSize
        ⟨sec.name, sec.rva, sec.virtualSize,
         (realChunks sec.chunks).map Chunk.sectionChunk⟩) := by
  refine ⟨?_, ?_, ?_⟩
  · show (writeChunksRows sec.chunks "").filter isFileRow = _
    exact writeChunksRows_filter_file sec.chunks ""
  · intro sc prev hf
    rw [writeSectionChunkRows_fst]
    have h1 : chunkTailRows sc = [] := by
      unfold chunkTailRows
      rw [hf]
    rw [h1, List.append_nil]
    by_cases h : sc.sectionName ≠ prev
    · rw [if_pos h]; rfl
    · rw [if_neg h]; rfl
  · show Row.outSec (sec.rva % 4294967296) sec.virtualSize pageSize sec.name ::
        writeChunksRows sec.chunks "" = _
    rw [writeSectionRows]
    exact congrArg _ (writeChunksRows_real sec.chunks "").symm

/-- Witness for C5 at a fragment with no owning file. -/
theorem file_rows_per_fragment_witness :
    (emptyNameChunk.file = none) ∧
    (writeSectionChunkRows emptyNameChunk ".text").1.filter
      (fun r => isFileRow r || isSymRow r) = [] :=
  ⟨rfl,
   (file_rows_per_fragment 4 emptyNameSection).2.1 emptyNameChunk ".text" rfl⟩

/-- Claim C4: while visiting a real fragment, a symbol row is emitted for
a symbol of the owning file iff the symbol is regular-defined, its
owning-fragment identity equals the visited fragment's identity, and its
section-definition flag is false; the emitted row carries the symbol's
own address, the enclosing fragment's size, and renders with align 0. -/
theorem symbol_rows_iff (f : ObjectFile) (sc : SectionChunk) (a s : Nat)
    (n : String) :
    (Row.symbol a s n ∈ symRowsOf f sc ↔
      SymbolBody.definedRegular a sc.id false n ∈ f.symbols ∧ s = sc.size) ∧
    (∀ a2 s2 n2, renderRow (Row.symbol a2 s2 n2) =
      writeFileLine a2 s2 0 "" ++ " " ++ left_justify n2 7 ++ "\n") := by
  constructor
  · constructor
    · intro hr
      rcases List.mem_filterMap.1 hr with ⟨sym, hmem, hsome⟩
      cases sym with
      | definedRegular a0 c0 sd0 n0 =>
        simp only [symRowFor] at hsome
        by_cases hc : c0 = sc.id ∧ sd0 = false
        · rw [if_pos hc] at hsome
          obtain ⟨h1, h2, h3⟩ := Row.symbol.inj (Option.some.inj hsome)
          rcases hc with ⟨hc1, hc2⟩
          subst h1
          subst h3
          subst hc1
          subst hc2
          exact ⟨hmem, h2.symm⟩
        · rw [if_neg hc] at hsome
          exact absurd hsome (by simp)
      | otherKind n0 => exact absurd hsome (by simp [symRowFor])
    · rintro ⟨hmem, hs⟩
      refine List.mem_filterMap.2
        ⟨SymbolBody.definedRegular a sc.id false n, hmem, ?_⟩
      simp [symRowFor, hs]
  · intro a2 s2 n2
    rfl

/-- Witness for C4 at the `local` symbol of the scenario. -/
theorem symbol_rows_iff_witness :
    Row.symbol 0x20100e 0xe "local" ∈ symRowsOf testFile testChunk ↔
      SymbolBody.definedRegular 0x20100e testChunk.id false "local" ∈
        testFile.symbols ∧ 0xe = testChunk.size :=
  (symbol_rows_iff testFile testChunk 0x20100e 0xe "local").1

theorem writeChunksRows_filterMap_outSec (chunks : List Chunk) :
    ∀ prev, (writeChunksRows chunks prev).filterMap projOutSec = [] := by
  induction chunks with
  | nil => intro prev; rfl
  | cons c rest ih =>
    intro prev
    cases c with
    | synthetic => exact ih prev
    | sectionChunk sc =>
      rw [writeChunksRows, List.filterMap_append, ih, writeSectionChunkRows_fst,
        List.filterMap_append]
      have h1 : (chunkTailRows sc).filterMap projOutSec = [] := by
        unfold chunkTailRows
        cases hf : sc.file with
        | none => rfl
        | some f =>
          show (symRowsOf f sc).filterMap projOutSec = []
          exact symRowsOf_filterMap_empty f sc projOutSec (fun a s n => rfl)
      rw [h1]
      have h2 : ((if sc.sectionName ≠ prev then [mkInSecRow sc] else
          []).filterMap projOutSec) = [] := by
        by_cases h : sc.sectionName ≠ prev
        · rw [if_pos h]; rfl
        · rw [if_neg h]; rfl
      rw [h2]
      rfl

theorem writeMapRows_cons (pageSize : Nat) (sec : OutputSection)
    (rest : List OutputSection) :
    writeMapRows pageSize (sec :: rest) =
      writeSectionRows pageSize sec ++ writeMapRows pageSize rest := rfl

/-- Claim C6: report generation is a pure function of the input layout —
re-running it over an unchanged input produces byte-identical text — and
rows are emitted strictly in input order with no sorting: the
section-level rows project to the input sections in order, the file-level
rows are the per-section fragment file rows concatenated in section
order, and each fragment's symbol rows follow the owning file's symbol
list order. -/
theorem report_deterministic_in_order (pageSize : Nat)
    (secs : List OutputSection) :
    (∀ secs2, secs = secs2 →
      writeMapFile2Str pageSize secs = writeMapFile2Str pageSize secs2) ∧
    ((writeMapRows pageSize secs).filterMap projOutSec =
      secs.map (fun sec =>
        (sec.rva % 4294967296, sec.virtualSize, pageSize, sec.name))) ∧
    ((writeMapRows pageSize secs).filter isFileRow =
      (secs.map (fun sec =>
        (realChunks sec.chunks).filterMap mkFileRowOpt)).flatten) ∧
    (∀ f sc, symRowsOf f sc = f.symbols.filterMap (symRowFor sc)) := by
  refine ⟨fun secs2 h => by rw [h], ?_, ?_, fun f sc => rfl⟩
  · induction secs with
    | nil => rfl
    | cons sec rest ih =>
      rw [writeMapRows_cons, List.filterMap_append, ih, List.map_cons]
      have h2 : (writeSectionRows pageSize sec).filterMap projOutSec =
          [(sec.rva % 4294967296, sec.virtualSize, pageSize, sec.name)] := by
        show (sec.rva % 4294967296, sec.virtualSize, pageSize, sec.name) ::
          (writeChunksRows sec.chunks "").filterMap projOutSec = _
        rw [writeChunksRows_filterMap_outSec]
      rw [h2]
      rfl
  · induction secs with
    | nil => rfl
    | cons sec rest ih =>
      rw [writeMapRows_cons, List.filter_append, ih, List.map_cons]
      have h2 : (writeSectionRows pageSize sec).filter isFileRow =
          (realChunks sec.chunks).filterMap mkFileRowOpt := by
        show (writeChunksRows sec.chunks "").filter isFileRow = _
        exact writeChunksRows_filter_file sec.chunks ""
      rw [h2]
      rfl

/-- Witness for C6 on the scenario layout. -/
theorem report_deterministic_in_order_witness :
    ([testSection] = [testSection]) ∧
    writeMapFile2Str 4 [testSection] = writeMapFile2Str 4 [testSection] :=
  ⟨rfl, (report_deterministic_in_order 4 [testSection]).1 [testSection] rfl⟩

theorem nodup_allEq_singleton {α : Type} (xs : List α) (v : α)
    (hn : xs.Nodup) (hall : ∀ x ∈ xs, x = v) (hv : v ∈ xs) : xs = [v] := by
  cases xs with
  | nil => exact absurd hv (by simp)
  | cons x rest =>
    have hx : x = v := hall x (List.mem_cons_self x rest)
    cases rest with
    | nil => rw [hx]
    | cons y t =>
      exfalso
      have hy : y = v := hall y (by simp)
      rcases List.nodup_cons.1 hn with ⟨hnotin, _⟩
      apply hnotin
      have hxy : x = y := hx.trans hy.symm
      rw [hxy]
      exact List.mem_cons_self y t

/-- Claim C9: a symbol passing the emission filter is selected exactly
once over the whole traversal — although the owning file's symbol list is
re-scanned at every fragment that file owns, the identity comparison
against the visited fragment selects the symbol only at its own fragment.
Fragment identities are pairwise distinct (they stand for pointers), and
the count of visits at which the filter selects the symbol is exactly 1. -/
theorem symbol_emitted_once (secs : List OutputSection) (f : ObjectFile)
    (a cid : Nat) (n : String) (fsc : SectionChunk)
    (hnodup : ((allRealChunks secs).map SectionChunk.id).Nodup)
    (hmem : fsc ∈ allRealChunks secs) (hid : fsc.id = cid)
    (hfile : fsc.file = some f)
    (hsym : SymbolBody.definedRegular a cid false n ∈ f.symbols) :
    ((allRealChunks secs).filter (fun sc =>
      decide (sc.file = some f ∧
        (symRowFor sc
          (SymbolBody.definedRegular a cid false n)).isSome = true))).length
      = 1 := by
  set l := allRealChunks secs with hl
  set P : SectionChunk → Bool := fun sc =>
    decide (sc.file = some f ∧
      (symRowFor sc
        (SymbolBody.definedRegular a cid false n)).isSome = true) with hP
  have hPiff : ∀ sc, P sc = true ↔ (sc.file = some f ∧ sc.id = cid) := by
    intro sc
    rw [hP]
    simp only [decide_eq_true_eq]
    constructor
    · rintro ⟨h1, h2⟩
      refine ⟨h1, ?_⟩
      simp only [symRowFor] at h2
      by_cases hcc : cid = sc.id
      · exact hcc.symm
      · rw [if_neg (fun hand => hcc hand.1)] at h2
        simp at h2
    · rintro ⟨h1, h2⟩
      refine ⟨h1, ?_⟩
      simp only [symRowFor]
      rw [if_pos ⟨h2.symm, trivial⟩]
      rfl
  have hfilter : l.filter P = [fsc] := by
    apply nodup_allEq_singleton
    · exact List.Nodup.filter P (List.Nodup.of_map _ hnodup)
    · intro x hx
      rcases List.mem_filter.1 hx with ⟨hxl, hPx⟩
      rcases (hPiff x).1 hPx with ⟨hxf, hxid⟩
      exact List.inj_on_of_nodup_map hnodup hxl hmem (by rw [hxid, hid])
    · exact List.mem_filter.2 ⟨hmem, (hPiff fsc).2 ⟨hfile, hid⟩⟩
  rw [hfilter]
  rfl

/-- Witness for C9: in the scenario the `local` symbol is selected at
exactly one fragment visit. -/
theorem symbol_emitted_once_witness :
    (((allRealChunks [testSection]).map SectionChunk.id).Nodup) ∧
    (testChunk ∈ allRealChunks [testSection]) ∧ (testChunk.id = 0) ∧
    (testChunk.file = some testFile) ∧
    (SymbolBody.definedRegular 0x20100e 0 false "local" ∈
      testFile.symbols) ∧
    ((allRealChunks [testSection]).filter (fun sc =>
      decide (sc.file = some testFile ∧
        (symRowFor sc
          (SymbolBody.definedRegular 0x20100e 0 false
            "local")).isSome = true))).length = 1 :=
  ⟨by decide, by decide, rfl, rfl, by decide,
   symbol_emitted_once [testSection] testFile 0x20100e 0 "local" testChunk
     (by decide) (by decide) rfl rfl (by decide)⟩
